import Mathlib

/-!
Verification of the Kolam-Ikan core (entry versioning engine and
bridge-key correlation protocol) against `src-tauri/src/commands.rs`.

The SQLite-backed store is embedded as a record of row lists; each Tauri
command becomes a Lean function on that state.  The external clock and id
generator are passed as explicit arguments.  JSON (de)serialisation is the
external `serde_json` collaborator: row columns hold the raw stored text
and the readers take the parser as a parameter, mirroring
`serde_json::from_str(..).unwrap_or_default()` at each use site.
-/

namespace KolamIkan

/-! ### Bridge key codec (`extract_bridge_key` / `validate_bridge_key`)

The Rust code matches the regex
`(?:<|&lt;)!-{2}\s*bridge\s*:\s*([a-zA-Z0-9]+)\s*-{2}(?:>|&gt;)`
(case-sensitive, no `i` flag) and lower-cases the first captured key.
We embed the regex as a deterministic scanner over `List Char`: leftmost
match wins, and at a fixed start position greedy (maximal-munch) matching
of `\s*` and `[a-zA-Z0-9]+` coincides with the regex semantics because the
character classes involved (`\s`, alphanumerics, `-`, the literal letters)
are pairwise disjoint at each juncture, so no backtracking can succeed
where maximal munch fails. -/

/-- The regex class `\s` (Unicode whitespace, as the `regex` crate matches it
by default), by code point. -/
def isWs (c : Char) : Bool :=
  decide (c.toNat = 9 ∨ c.toNat = 10 ∨ c.toNat = 11 ∨ c.toNat = 12 ∨ c.toNat = 13 ∨
    c.toNat = 32 ∨ c.toNat = 133 ∨ c.toNat = 160 ∨ c.toNat = 5760 ∨
    (8192 ≤ c.toNat ∧ c.toNat ≤ 8202) ∨ c.toNat = 8232 ∨ c.toNat = 8233 ∨
    c.toNat = 8239 ∨ c.toNat = 8287 ∨ c.toNat = 12288)

/-- The regex class `[a-zA-Z0-9]`, by code point. -/
def isAlnum (c : Char) : Bool :=
  decide ((97 ≤ c.toNat ∧ c.toNat ≤ 122) ∨ (65 ≤ c.toNat ∧ c.toNat ≤ 90) ∨
    (48 ≤ c.toNat ∧ c.toNat ≤ 57))

/-- ASCII lower-casing of one character (the captured key is `[a-zA-Z0-9]+`,
so Rust's `to_lowercase` acts exactly like this on it). -/
def lowerChar (c : Char) : Char :=
  if 65 ≤ c.toNat ∧ c.toNat ≤ 90 then Char.ofNat (c.toNat + 32) else c

/-- Lower-case a whole string, character by character. -/
def lowerStr (s : String) : String :=
  String.mk (s.data.map lowerChar)

/-- Consume an exact literal. -/
def dropLit : List Char → List Char → Option (List Char)
  | [], cs => some cs
  | _ :: _, [] => none
  | p :: ps, c :: cs => if c = p then dropLit ps cs else none

/-- Greedy `\s*`. -/
def dropWs : List Char → List Char
  | [] => []
  | c :: cs => if isWs c then dropWs cs else c :: cs

/-- Greedy `[a-zA-Z0-9]*`: the taken run and the remainder. -/
def takeAlnum : List Char → List Char × List Char
  | [] => ([], [])
  | c :: cs =>
    if isAlnum c then
      let p := takeAlnum cs
      (c :: p.1, p.2)
    else ([], c :: cs)

/-- The alternation `(?:<|&lt;)`; the two branches start with distinct
characters, so committing to the first that applies is exact. -/
def matchOpen (cs : List Char) : Option (List Char) :=
  match dropLit ['<'] cs with
  | some r => some r
  | none => dropLit ['&', 'l', 't', ';'] cs

/-- The alternation `(?:>|&gt;)`. -/
def matchClose (cs : List Char) : Option (List Char) :=
  match dropLit ['>'] cs with
  | some r => some r
  | none => dropLit ['&', 'g', 't', ';'] cs

/-- Attempt to match the whole marker at the head of `cs`; returns the raw
captured key. -/
def matchAt (cs : List Char) : Option (List Char) :=
  (matchOpen cs).bind fun r1 =>
  (dropLit ['!', '-', '-'] r1).bind fun r2 =>
  (dropLit ['b', 'r', 'i', 'd', 'g', 'e'] (dropWs r2)).bind fun r3 =>
  (dropLit [':'] (dropWs r3)).bind fun r4 =>
  if (takeAlnum (dropWs r4)).1 = [] then none
  else
    (dropLit ['-', '-'] (dropWs (takeAlnum (dropWs r4)).2)).bind fun r5 =>
    (matchClose r5).map fun _ => (takeAlnum (dropWs r4)).1

/-- Leftmost match: try each start position in order. -/
def scanKey : List Char → Option (List Char)
  | [] => none
  | c :: cs =>
    match matchAt (c :: cs) with
    | some k => some k
    | none => scanKey cs

/-- `extract_bridge_key` from `commands.rs`: first captured key, lower-cased. -/
def extract_bridge_key (input_text : String) : Option String :=
  (scanKey input_text.data).map fun k => String.mk (k.map lowerChar)

/-- `validate_bridge_key` from `commands.rs`: captures with the same regex and
compares the found key with the expected key, both lower-cased. -/
def validate_bridge_key (input_text expected_key : String) : Bool :=
  match scanKey input_text.data with
  | some k => String.mk (k.map lowerChar) == lowerStr expected_key
  | none => false

/-! Declarative grammar of a marker, written from the spec's description
("an opening angle bracket (literal `<` or the HTML entity `&lt;`), then
`!--`, optional whitespace, `bridge`, optional whitespace, `:`, optional
whitespace, one or more alphanumeric characters, optional whitespace, `--`,
and a closing `>` or `&gt;`"), to be compared with the scanner above. -/

/-- Opening bracket token of the grammar. -/
def isOpenTok (o : List Char) : Prop := o = ['<'] ∨ o = ['&', 'l', 't', ';']

/-- Closing bracket token of the grammar. -/
def isCloseTok (c : List Char) : Prop := c = ['>'] ∨ c = ['&', 'g', 't', ';']

/-- A (possibly empty) run of whitespace. -/
def wsRun (w : List Char) : Prop := ∀ c ∈ w, isWs c = true

/-- A nonempty run of alphanumerics: a well-formed captured key. -/
def keyRun (k : List Char) : Prop := k ≠ [] ∧ ∀ c ∈ k, isAlnum c = true

/-- `m` is exactly one marker of the grammar with captured key `key`. -/
def markerMatch (m key : List Char) : Prop :=
  ∃ o w1 w2 w3 w4 cl,
    isOpenTok o ∧ wsRun w1 ∧ wsRun w2 ∧ wsRun w3 ∧ keyRun key ∧ wsRun w4 ∧ isCloseTok cl ∧
    m = o ++ ['!', '-', '-'] ++ w1 ++ ['b', 'r', 'i', 'd', 'g', 'e'] ++ w2 ++ [':'] ++
        w3 ++ key ++ w4 ++ ['-', '-'] ++ cl

/-- A marker with key `key` starts at position `i` of `cs`. -/
def hasMarkerAt (cs : List Char) (i : Nat) (key : List Char) : Prop :=
  ∃ m rest, cs.drop i = m ++ rest ∧ markerMatch m key

/-- Head-condition: the first character of the list (if any) fails test `f`. -/
def headNot (f : Char → Bool) : List Char → Prop
  | [] => True
  | c :: _ => f c = false

/-! ### Data model: the SQLite store as lists of rows

Column types follow the schema in `database.rs`: `INTEGER` columns become
`Int`, `TEXT` columns holding JSON (entry `content`, version
`content_snapshot`, stream `tags`, entry `parent_context_ids` and
`ai_metadata`) stay raw `String`s in the rows, and are decoded only in the
row-mapping closures of the read commands, exactly where `commands.rs`
calls `serde_json::from_str`.  The one exception is
`pending_blocks.staged_context_ids`, which both the writer and the reader
round-trip through JSON unconditionally, so it is kept as a typed list. -/

/-- A row of the `streams` table. -/
structure StreamRow where
  id : String
  title : String
  description : Option String
  tags : Option String
  color : Option String
  pinned : Int
  created_at : Int
  updated_at : Int
deriving Repr, DecidableEq

/-- A row of the `entries` table. -/
structure EntryRow where
  id : String
  stream_id : String
  role : String
  content : String
  sequence_id : Int
  version_head : Int
  is_staged : Int
  parent_context_ids : Option String
  ai_metadata : Option String
  created_at : Int
  updated_at : Int
deriving Repr, DecidableEq

/-- A row of the `entry_versions` table. -/
structure VersionRow where
  id : String
  entry_id : String
  version_number : Int
  content_snapshot : String
  commit_message : Option String
  committed_at : Int
deriving Repr, DecidableEq

/-- A row of the `pending_blocks` table (`staged_context_ids` typed, see
above). -/
structure PendingRow where
  id : String
  stream_id : String
  bridge_key : String
  staged_context_ids : List String
  directive : String
  created_at : Int
deriving Repr, DecidableEq

/-- The whole store. -/
structure DB where
  streams : List StreamRow
  entries : List EntryRow
  versions : List VersionRow
  pendings : List PendingRow
deriving Repr, DecidableEq

/-! ### API-boundary values

`serde_json::Value` and the typed metadata are what the commands return to
the UI.  The parsers for the JSON-typed columns are the external
`serde_json` collaborator and are passed as explicit parameters; every
read site applies them with the `unwrap_or_default` / `.ok()` fallback the
Rust code uses. -/

/-- Stand-in for `serde_json::Value`; its `Default` is `null`. -/
inductive Json where
  | null
  | bool (b : Bool)
  | num (n : Int)
  | str (s : String)
  | arr (elems : List Json)
  | obj (fields : List (String × Json))
deriving Repr, Inhabited

/-- `AiMetadata` from `models.rs`. -/
structure AiMetadata where
  model : String
  provider : String
  directive : String
  bridge_key : String
  summary : Option String
deriving Repr, DecidableEq

/-- The external JSON decoders (`serde_json::from_str` at each result
type). -/
structure Parsers where
  content : String → Option Json
  ids : String → Option (List String)
  meta : String → Option AiMetadata
  tags : String → Option (List String)

/-- `Entry` from `models.rs` (API shape). -/
structure Entry where
  id : String
  stream_id : String
  role : String
  content : Json
  sequence_id : Int
  version_head : Int
  is_staged : Bool
  parent_context_ids : Option (List String)
  ai_metadata : Option AiMetadata
  created_at : Int
  updated_at : Int
deriving Repr

/-- `EntryVersion` from `models.rs` (API shape). -/
structure EntryVersion where
  id : String
  entry_id : String
  version_number : Int
  content_snapshot : Json
  commit_message : Option String
  committed_at : Int
deriving Repr

/-- `Stream` from `models.rs` (API shape). -/
structure Stream where
  id : String
  title : String
  description : Option String
  tags : List String
  color : Option String
  pinned : Bool
  created_at : Int
  updated_at : Int
deriving Repr

/-- `StreamWithEntries` from `models.rs`. -/
structure StreamWithEntries where
  stream : Stream
  entries : List Entry
deriving Repr

/-- Row mapper of `get_staged_entries` (note the Rust closure hardcodes
`is_staged: true` for the rows it returns). -/
def stagedRowToEntry (p : Parsers) (r : EntryRow) : Entry :=
  { id := r.id, stream_id := r.stream_id, role := r.role,
    content := (p.content r.content).getD .null,
    sequence_id := r.sequence_id, version_head := r.version_head,
    is_staged := true,
    parent_context_ids := r.parent_context_ids.bind fun s => p.ids s,
    ai_metadata := r.ai_metadata.bind fun s => p.meta s,
    created_at := r.created_at, updated_at := r.updated_at }

/-- Row mapper of `get_stream_details` (reads `is_staged` from the
column). -/
def detailRowToEntry (p : Parsers) (r : EntryRow) : Entry :=
  { id := r.id, stream_id := r.stream_id, role := r.role,
    content := (p.content r.content).getD .null,
    sequence_id := r.sequence_id, version_head := r.version_head,
    is_staged := r.is_staged != 0,
    parent_context_ids := r.parent_context_ids.bind fun s => p.ids s,
    ai_metadata := r.ai_metadata.bind fun s => p.meta s,
    created_at := r.created_at, updated_at := r.updated_at }

/-- Row mapper shared by `get_entry_versions`, `get_latest_version` and
`get_version_by_number`. -/
def versionRowToEntryVersion (p : Parsers) (r : VersionRow) : EntryVersion :=
  { id := r.id, entry_id := r.entry_id, version_number := r.version_number,
    content_snapshot := (p.content r.content_snapshot).getD .null,
    commit_message := r.commit_message, committed_at := r.committed_at }

/-- Row mapper of `get_stream_details` for the stream itself. -/
def streamRowToStream (p : Parsers) (r : StreamRow) : Stream :=
  { id := r.id, title := r.title, description := r.description,
    tags := (r.tags.bind fun s => p.tags s).getD [],
    color := r.color, pinned := r.pinned != 0,
    created_at := r.created_at, updated_at := r.updated_at }

/-- One step of the `LIMIT 1` scan: keep the row with the larger measure,
the earlier row winning ties. -/
def pickStep (f : α → Int) (acc : Option α) (r : α) : Option α :=
  match acc with
  | none => some r
  | some b => if f b < f r then some r else some b

/-- `ORDER BY created_at DESC LIMIT 1` (resp. `version_number`): one pass
keeping the row with the larger measure, first row winning ties. -/
def pickLater (f : α → Int) (l : List α) : Option α :=
  l.foldl (pickStep f) none

/-- `ORDER BY sequence_id ASC` comparator. -/
def bySeq (a b : EntryRow) : Bool := decide (a.sequence_id ≤ b.sequence_id)

/-- `ORDER BY version_number DESC` comparator. -/
def byVerDesc (a b : VersionRow) : Bool := decide (b.version_number ≤ a.version_number)

/-! ### The commands (from `commands.rs`)

External inputs (`chrono::Utc::now().timestamp_millis()`, freshly
generated UUIDs) are passed in as arguments.  Each command returns
`Except String`, mirroring `Result<_, String>`; in the model the only
`Err` sources left are the `query_row` calls on an empty result
(`QueryReturnedNoRows`), because lock poisoning and SQL failures live
outside the embedded state. -/

/-- `commit_entry_version`: read `content` and `version_head` of the entry
(NotFound error if absent), insert a version row numbered
`version_head + 1` with the current content as snapshot, set the entry's
`version_head` to that number, and return the created version.  It touches
no other table. -/
def commit_entry_version (p : Parsers) (db : DB) (entry_id : String)
    (commit_message : Option String) (now : Int) (version_id : String) :
    Except String (EntryVersion × DB) :=
  match db.entries.find? (fun e => e.id == entry_id) with
  | none => .error "Query returned no rows"
  | some e =>
    let new_version := e.version_head + 1
    let vrow : VersionRow :=
      { id := version_id, entry_id := entry_id, version_number := new_version,
        content_snapshot := e.content, commit_message := commit_message,
        committed_at := now }
    .ok
      ({ id := version_id, entry_id := entry_id, version_number := new_version,
         content_snapshot := (p.content e.content).getD .null,
         commit_message := commit_message, committed_at := now },
       { db with
         versions := db.versions ++ [vrow],
         entries := db.entries.map fun x =>
           if x.id == entry_id then { x with version_head := new_version } else x })

/-- Sequential commits: the same entry committed once per element of `ps`
(message, timestamp, fresh version id). -/
def commitSeq (p : Parsers) (entry_id : String) :
    List (Option String × Int × String) → DB → Except String (DB × List EntryVersion)
  | [], db => .ok (db, [])
  | (msg, now, vid) :: rest, db =>
    match commit_entry_version p db entry_id msg now vid with
    | .error e => .error e
    | .ok (v, db') =>
      match commitSeq p entry_id rest db' with
      | .error e => .error e
      | .ok (db'', vs) => .ok (db'', v :: vs)

/-- `revert_to_version`: look up the snapshot (NotFound error if absent),
then overwrite the entry's `content` and `updated_at`.  No version row is
written and `version_head` is not touched. -/
def revert_to_version (db : DB) (entry_id : String) (version_number : Int)
    (now : Int) : Except String DB :=
  match db.versions.find?
      (fun v => v.entry_id == entry_id && v.version_number == version_number) with
  | none => .error "Query returned no rows"
  | some v =>
    .ok { db with
          entries := db.entries.map fun x =>
            if x.id == entry_id then
              { x with content := v.content_snapshot, updated_at := now }
            else x }

/-- `get_version_by_number`. -/
def get_version_by_number (p : Parsers) (db : DB) (entry_id : String)
    (version_number : Int) : Except String (Option EntryVersion) :=
  .ok ((db.versions.find?
      (fun v => v.entry_id == entry_id && v.version_number == version_number)).map
    (versionRowToEntryVersion p))

/-- `get_entry_versions`: all versions of the entry, newest number first. -/
def get_entry_versions (p : Parsers) (db : DB) (entry_id : String) :
    Except String (List EntryVersion) :=
  .ok (((db.versions.filter fun v => v.entry_id == entry_id).mergeSort byVerDesc).map
    (versionRowToEntryVersion p))

/-- `get_latest_version`: highest version number or `none`. -/
def get_latest_version (p : Parsers) (db : DB) (entry_id : String) :
    Except String (Option EntryVersion) :=
  .ok ((pickLater (fun v => v.version_number)
      (db.versions.filter fun v => v.entry_id == entry_id)).map
    (versionRowToEntryVersion p))

/-- `get_staged_entries`: staged entries of the stream, `sequence_id`
ascending. -/
def get_staged_entries (p : Parsers) (db : DB) (stream_id : String) :
    Except String (List Entry) :=
  .ok (((db.entries.filter fun e =>
      e.stream_id == stream_id && e.is_staged == 1).mergeSort bySeq).map
    (stagedRowToEntry p))

/-- `get_stream_details`: the stream (NotFound error if absent) plus all its
entries, `sequence_id` ascending. -/
def get_stream_details (p : Parsers) (db : DB) (stream_id : String) :
    Except String StreamWithEntries :=
  match db.streams.find? (fun s => s.id == stream_id) with
  | none => .error "Query returned no rows"
  | some s =>
    .ok { stream := streamRowToStream p s,
          entries := ((db.entries.filter fun e =>
              e.stream_id == stream_id).mergeSort bySeq).map
            (detailRowToEntry p) }

/-- `toggle_entry_staging`: `UPDATE entries SET is_staged = ? WHERE id = ?`;
zero affected rows is still `Ok`. -/
def toggle_entry_staging (db : DB) (entry_id : String) (is_staged : Bool) :
    Except String DB :=
  .ok { db with
        entries := db.entries.map fun r =>
          if r.id == entry_id then
            { r with is_staged := if is_staged then 1 else 0 }
          else r }

/-- `delete_entry`: `DELETE FROM entries WHERE id = ?`; zero affected rows is
still `Ok`.  (The connection never enables `PRAGMA foreign_keys`, so the
schema's `ON DELETE CASCADE` clauses are inert at runtime and only the
`entries` table changes.) -/
def delete_entry (db : DB) (entry_id : String) : Except String DB :=
  .ok { db with entries := db.entries.filter fun r => !(r.id == entry_id) }

/-- `create_pending_block`: insert a row and echo it back. -/
def create_pending_block (db : DB) (stream_id bridge_key : String)
    (staged_context_ids : List String) (directive : String) (now : Int)
    (id : String) : Except String (PendingRow × DB) :=
  let row : PendingRow :=
    { id := id, stream_id := stream_id, bridge_key := bridge_key,
      staged_context_ids := staged_context_ids, directive := directive,
      created_at := now }
  .ok (row, { db with pendings := db.pendings ++ [row] })

/-- `get_pending_block`: the stream's pending block with the greatest
`created_at`, or `none`. -/
def get_pending_block (db : DB) (stream_id : String) :
    Except String (Option PendingRow) :=
  .ok (pickLater (fun b => b.created_at)
    (db.pendings.filter fun b => b.stream_id == stream_id))

/-- `delete_pending_block`: `DELETE FROM pending_blocks WHERE id = ?`; zero
affected rows is still `Ok`. -/
def delete_pending_block (db : DB) (pending_block_id : String) :
    Except String DB :=
  .ok { db with pendings := db.pendings.filter fun r => !(r.id == pending_block_id) }

/-! ### Sample data used by the concrete witnesses -/

/-- A parser bundle that rejects every stored string: the worst case for the
`unwrap_or_default` fallbacks. -/
def pNone : Parsers :=
  { content := fun _ => none, ids := fun _ => none, meta := fun _ => none,
    tags := fun _ => none }

/-- A parser bundle that accepts nothing but maps content to a fixed value;
used where a successful parse is wanted. -/
def pConst (j : Json) : Parsers :=
  { content := fun _ => some j, ids := fun _ => none, meta := fun _ => none,
    tags := fun _ => none }

/-- A sample stream row (`updated_at = 5`). -/
def sampleStream : StreamRow :=
  { id := "s", title := "t", description := none, tags := some "notjson",
    color := none, pinned := 0, created_at := 5, updated_at := 5 }

/-- A fresh sample entry in stream `"s"` (`version_head = 0`). -/
def sampleEntry : EntryRow :=
  { id := "A", stream_id := "s", role := "user", content := "{}",
    sequence_id := 1, version_head := 0, is_staged := 0,
    parent_context_ids := none, ai_metadata := none,
    created_at := 1, updated_at := 1 }

/-- The sample entry after two commits (content edited in between). -/
def sampleEntry2 : EntryRow :=
  { sampleEntry with version_head := 2, content := "c2" }

/-- Version 1 of the sample entry. -/
def sampleV1 : VersionRow :=
  { id := "V1", entry_id := "A", version_number := 1, content_snapshot := "c1",
    commit_message := none, committed_at := 10 }

/-- Version 2 of the sample entry. -/
def sampleV2 : VersionRow :=
  { id := "V2", entry_id := "A", version_number := 2, content_snapshot := "c2",
    commit_message := some "m", committed_at := 20 }

/-- A sample pending block of stream `"s"`. -/
def samplePending : PendingRow :=
  { id := "P", stream_id := "s", bridge_key := "k", staged_context_ids := [],
    directive := "DUMP", created_at := 7 }

/-- Store holding just the fresh sample entry and its stream. -/
def dbFresh : DB := ⟨[sampleStream], [sampleEntry], [], []⟩

/-- Store as left by two commits on the sample entry. -/
def dbCommitted : DB := ⟨[sampleStream], [sampleEntry2], [sampleV1, sampleV2], []⟩

/-- Store holding one pending block. -/
def dbPending : DB := ⟨[], [], [], [samplePending]⟩

/-- A staged entry whose stored content is not valid JSON. -/
def sampleEntryBad : EntryRow :=
  { sampleEntry with is_staged := 1, content := "notjson" }

/-- A version row whose stored snapshot is not valid JSON. -/
def sampleVBad : VersionRow :=
  { id := "VB", entry_id := "A", version_number := 1,
    content_snapshot := "notjson", commit_message := none, committed_at := 10 }

/-- Store with unparseable JSON in entry content, version snapshot and
stream tags. -/
def dbBad : DB := ⟨[sampleStream], [sampleEntryBad], [sampleVBad], []⟩

/-! ### Lemmas about the scanner -/

theorem toNat_ofNat_valid {n : Nat} (h : n < 55296) : (Char.ofNat n).toNat = n := by
  have hv : n.isValidChar := Or.inl h
  simp [Char.ofNat, hv, Char.ofNatAux, Char.toNat, UInt32.toNat, BitVec.toNat_ofNatLt]

theorem lowerChar_idem (c : Char) : lowerChar (lowerChar c) = lowerChar c := by
  unfold lowerChar
  by_cases h : 65 ≤ c.toNat ∧ c.toNat ≤ 90
  · have hv : (Char.ofNat (c.toNat + 32)).toNat = c.toNat + 32 :=
      toNat_ofNat_valid (by omega)
    simp [h, hv]
    omega
  · simp [h]

theorem dropLit_sound : ∀ {p cs r : List Char}, dropLit p cs = some r → cs = p ++ r
  | [], _, _, h => by simp [dropLit] at h; simp [h]
  | _ :: _, [], _, h => by simp [dropLit] at h
  | p :: ps, c :: cs, r, h => by
    by_cases hc : c = p
    · subst hc
      simp only [dropLit, if_pos rfl] at h
      simpa using dropLit_sound h
    · simp [dropLit, hc] at h

theorem dropLit_append (p r : List Char) : dropLit p (p ++ r) = some r := by
  induction p with
  | nil => simp [dropLit]
  | cons c cs ih => simp [dropLit, ih]

theorem ws_not_alnum {c : Char} (h : isWs c = true) : isAlnum c = false := by
  simp [isWs, decide_eq_true_eq] at h
  simp [isAlnum, decide_eq_true_eq]
  omega

theorem alnum_not_ws {c : Char} (h : isAlnum c = true) : isWs c = false := by
  simp [isAlnum, decide_eq_true_eq] at h
  simp [isWs, decide_eq_true_eq]
  omega

theorem dropWs_decomp (cs : List Char) : ∃ w, wsRun w ∧ cs = w ++ dropWs cs := by
  induction cs with
  | nil => exact ⟨[], by simp [wsRun], by simp [dropWs]⟩
  | cons c cs ih =>
    by_cases hc : isWs c = true
    · obtain ⟨w, hw, he⟩ := ih
      refine ⟨c :: w, ?_, ?_⟩
      · intro d hd
        rcases List.mem_cons.mp hd with rfl | hd
        · exact hc
        · exact hw _ hd
      · simp [dropWs, hc]
        exact he
    · exact ⟨[], by simp [wsRun], by simp [dropWs, hc]⟩

theorem dropWs_append {w r : List Char} (hw : wsRun w) (hr : headNot isWs r) :
    dropWs (w ++ r) = r := by
  induction w with
  | nil =>
    cases r with
    | nil => simp [dropWs]
    | cons c cs => simp [dropWs, headNot.eq_def] at hr ⊢; simp [hr]
  | cons c w ih =>
    have hc : isWs c = true := hw c (by simp)
    have hw' : wsRun w := fun d hd => hw d (by simp [hd])
    simp [dropWs, hc, ih hw']

theorem takeAlnum_decomp (cs : List Char) :
    cs = (takeAlnum cs).1 ++ (takeAlnum cs).2 ∧ ∀ c ∈ (takeAlnum cs).1, isAlnum c = true := by
  induction cs with
  | nil => simp [takeAlnum]
  | cons c cs ih =>
    by_cases hc : isAlnum c = true
    · refine ⟨?_, ?_⟩
      · simp only [takeAlnum, hc, if_pos]
        simpa using ih.1
      · simp only [takeAlnum, hc, if_pos]
        intro d hd
        rcases List.mem_cons.mp hd with rfl | hd
        · exact hc
        · exact ih.2 _ hd
    · simp [takeAlnum, hc]

theorem takeAlnum_append {k r : List Char} (hk : ∀ c ∈ k, isAlnum c = true)
    (hr : headNot isAlnum r) : takeAlnum (k ++ r) = (k, r) := by
  induction k with
  | nil =>
    cases r with
    | nil => simp [takeAlnum]
    | cons c cs => simp [headNot.eq_def] at hr; simp [takeAlnum, hr]
  | cons c k ih =>
    have hc : isAlnum c = true := hk c (by simp)
    have hk' : ∀ d ∈ k, isAlnum d = true := fun d hd => hk d (by simp [hd])
    simp [takeAlnum, hc, ih hk']

theorem matchOpen_sound {cs r : List Char} (h : matchOpen cs = some r) :
    ∃ o, isOpenTok o ∧ cs = o ++ r := by
  unfold matchOpen at h
  rcases h1 : dropLit ['<'] cs with _ | r1
  · simp [h1] at h
    exact ⟨_, Or.inr rfl, dropLit_sound h⟩
  · simp [h1] at h
    subst h
    exact ⟨_, Or.inl rfl, dropLit_sound h1⟩

theorem matchOpen_append {o : List Char} (ho : isOpenTok o) (r : List Char) :
    matchOpen (o ++ r) = some r := by
  rcases ho with h | h <;> subst h <;> simp [matchOpen, dropLit]

theorem matchClose_sound {cs r : List Char} (h : matchClose cs = some r) :
    ∃ cl, isCloseTok cl ∧ cs = cl ++ r := by
  unfold matchClose at h
  rcases h1 : dropLit ['>'] cs with _ | r1
  · simp [h1] at h
    exact ⟨_, Or.inr rfl, dropLit_sound h⟩
  · simp [h1] at h
    subst h
    exact ⟨_, Or.inl rfl, dropLit_sound h1⟩

theorem matchClose_append {cl : List Char} (hc : isCloseTok cl) (r : List Char) :
    matchClose (cl ++ r) = some r := by
  rcases hc with h | h <;> subst h <;> simp [matchClose, dropLit]

theorem headNot_of_head {f : Char → Bool} {c : Char} {l : List Char}
    (h : f c = false) : headNot f (c :: l) := h

theorem headNot_alnum_wsDash {w r : List Char} (hw : wsRun w) :
    headNot isAlnum (w ++ '-' :: r) := by
  cases w with
  | nil => exact headNot_of_head (by decide)
  | cons c w => exact headNot_of_head (ws_not_alnum (hw c (by simp)))


theorem headNot_append_head {f : Char → Bool} {c : Char} {l r : List Char}
    (h : f c = false) : headNot f ((c :: l) ++ r) := h

theorem headNot_alnum_wsLit {w l r : List Char} {c : Char} (hw : wsRun w)
    (hc : isAlnum c = false) : headNot isAlnum (w ++ ((c :: l) ++ r)) := by
  cases w with
  | nil => exact hc
  | cons d w => exact ws_not_alnum (hw d (by simp))

theorem matchAt_complete {m key : List Char} (hm : markerMatch m key) (rest : List Char) :
    matchAt (m ++ rest) = some key := by
  obtain ⟨o, w1, w2, w3, w4, cl, ho, hw1, hw2, hw3, ⟨hkne, hkal⟩, hw4, hcl, he⟩ := hm
  subst he
  obtain ⟨kc, ktl, rfl⟩ := List.exists_cons_of_ne_nil hkne
  unfold matchAt
  simp only [List.append_assoc]
  rw [matchOpen_append ho]
  simp only [Option.some_bind]
  rw [dropLit_append]
  simp only [Option.some_bind]
  rw [dropWs_append hw1 (headNot_append_head (by decide))]
  rw [dropLit_append]
  simp only [Option.some_bind]
  rw [dropWs_append hw2 (headNot_append_head (by decide))]
  rw [dropLit_append]
  simp only [Option.some_bind]
  rw [dropWs_append hw3 (headNot_append_head (alnum_not_ws (hkal kc (by simp))))]
  rw [takeAlnum_append hkal (headNot_alnum_wsLit hw4 (by decide))]
  simp only [reduceCtorEq, if_false]
  rw [dropWs_append hw4 (headNot_append_head (by decide))]
  rw [dropLit_append]
  simp only [Option.some_bind]
  rw [matchClose_append hcl]
  simp

theorem dropWs_decomp' {cs d : List Char} (h : dropWs cs = d) :
    ∃ w, wsRun w ∧ cs = w ++ d := by
  subst h
  exact dropWs_decomp cs

theorem matchAt_sound {cs key : List Char} (h : matchAt cs = some key) :
    ∃ m rest, cs = m ++ rest ∧ markerMatch m key := by
  unfold matchAt at h
  rcases e1 : matchOpen cs with _ | r1 <;> rw [e1] at h
  · simp at h
  simp only [Option.some_bind] at h
  rcases e2 : dropLit ['!', '-', '-'] r1 with _ | r2 <;> rw [e2] at h
  · simp at h
  simp only [Option.some_bind] at h
  rcases e3 : dropLit ['b', 'r', 'i', 'd', 'g', 'e'] (dropWs r2) with _ | r3 <;> rw [e3] at h
  · simp at h
  simp only [Option.some_bind] at h
  rcases e4 : dropLit [':'] (dropWs r3) with _ | r4 <;> rw [e4] at h
  · simp at h
  simp only [Option.some_bind] at h
  by_cases hk : (takeAlnum (dropWs r4)).1 = []
  · rw [if_pos hk] at h; simp at h
  rw [if_neg hk] at h
  have htk := takeAlnum_decomp (dropWs r4)
  generalize htk0 : takeAlnum (dropWs r4) = kp at h hk htk
  obtain ⟨k1, k2⟩ := kp
  dsimp only at h hk htk
  rcases e5 : dropLit ['-', '-'] (dropWs k2) with _ | r5 <;> rw [e5] at h
  · simp at h
  simp only [Option.some_bind] at h
  rcases e6 : matchClose r5 with _ | r6 <;> rw [e6] at h
  · simp at h
  have hkey : k1 = key := by simpa using h
  subst hkey
  obtain ⟨o, ho, rfl⟩ := matchOpen_sound e1
  have h2 : r1 = ['!', '-', '-'] ++ r2 := dropLit_sound e2
  obtain ⟨w1, hw1, h3⟩ := dropWs_decomp' (dropLit_sound e3)
  obtain ⟨w2, hw2, h4⟩ := dropWs_decomp' (dropLit_sound e4)
  obtain ⟨w3, hw3, h5⟩ := dropWs_decomp' htk.1
  obtain ⟨w4, hw4, h6⟩ := dropWs_decomp' (dropLit_sound e5)
  obtain ⟨cl, hcl, h7⟩ := matchClose_sound e6
  refine ⟨o ++ ['!', '-', '-'] ++ w1 ++ ['b', 'r', 'i', 'd', 'g', 'e'] ++ w2 ++ [':'] ++
      w3 ++ k1 ++ w4 ++ ['-', '-'] ++ cl, r6, ?_, ?_⟩
  · rw [h2, h3, h4, h5, h6, h7]
    simp [List.append_assoc]
  · exact ⟨o, w1, w2, w3, w4, cl, ho, hw1, hw2, hw3, ⟨hk, htk.2⟩, hw4, hcl, rfl⟩


theorem matchAt_iff {cs key : List Char} :
    matchAt cs = some key ↔ ∃ m rest, cs = m ++ rest ∧ markerMatch m key := by
  constructor
  · exact matchAt_sound
  · rintro ⟨m, rest, rfl, hm⟩
    exact matchAt_complete hm rest

theorem hasMarkerAt_iff {cs : List Char} {i : Nat} {key : List Char} :
    hasMarkerAt cs i key ↔ matchAt (cs.drop i) = some key := by
  rw [matchAt_iff]
  rfl

theorem scanKey_none_iff {cs : List Char} :
    scanKey cs = none ↔ ∀ i, matchAt (cs.drop i) = none := by
  induction cs with
  | nil =>
    simp only [scanKey, List.drop_nil, true_iff]
    intro i
    rfl
  | cons c cs ih =>
    constructor
    · intro h i
      unfold scanKey at h
      rcases e : matchAt (c :: cs) with _ | k <;> rw [e] at h
      · cases i with
        | zero => simpa using e
        | succ j => simpa using (ih.mp h) j
      · cases h
    · intro h
      unfold scanKey
      have h0 : matchAt (c :: cs) = none := by simpa using h 0
      rw [h0]
      exact ih.mpr fun j => by simpa using h (j + 1)

theorem scanKey_some {cs k : List Char} (h : scanKey cs = some k) :
    ∃ i, matchAt (cs.drop i) = some k ∧ ∀ j, j < i → matchAt (cs.drop j) = none := by
  induction cs with
  | nil => simp [scanKey] at h
  | cons c cs ih =>
    unfold scanKey at h
    rcases e : matchAt (c :: cs) with _ | k' <;> rw [e] at h
    · obtain ⟨i, hi, hlt⟩ := ih h
      refine ⟨i + 1, by simpa using hi, fun j hj => ?_⟩
      cases j with
      | zero => simpa using e
      | succ j' => simpa using hlt j' (by omega)
    · injection h with h'
      subst h'
      exact ⟨0, by simpa using e, fun j hj => by omega⟩

theorem scanKey_of_matchAt {cs k : List Char} (h : matchAt cs = some k) :
    scanKey cs = some k := by
  cases cs with
  | nil => rw [show matchAt [] = none from rfl] at h; cases h
  | cons c cs => unfold scanKey; rw [h]

/-- Claim C4: `extract_bridge_key` returns the lower-cased key of the first
(leftmost) marker matching the grammar, `none` when no marker occurs, and in
particular maps `"Please see <!-- bridge: Ab12 -->"` to `some "ab12"` and
`"...&lt;!--bridge:XY9Z--&gt;..."` to `some "xy9z"`. -/
theorem extract_bridge_key_spec (text : String) :
    (extract_bridge_key text = none ↔ ∀ i key, ¬ hasMarkerAt text.data i key) ∧
    (∀ k, extract_bridge_key text = some k →
      ∃ i key, hasMarkerAt text.data i key ∧ k = String.mk (key.map lowerChar) ∧
        ∀ j key', hasMarkerAt text.data j key' → i ≤ j) ∧
    extract_bridge_key "Please see <!-- bridge: Ab12 -->" = some "ab12" ∧
    extract_bridge_key "...&lt;!--bridge:XY9Z--&gt;..." = some "xy9z" := by
  refine ⟨?_, ?_, by decide, by decide⟩
  · unfold extract_bridge_key
    constructor
    · intro h i key hm
      have hms := hasMarkerAt_iff.mp hm
      have hnone : scanKey text.data = none := by
        rcases hs : scanKey text.data with _ | k0
        · rfl
        · rw [hs] at h; cases h
      rw [scanKey_none_iff] at hnone
      rw [hnone i] at hms
      cases hms
    · intro h
      have hnone : scanKey text.data = none := by
        rw [scanKey_none_iff]
        intro i
        rcases e : matchAt (text.data.drop i) with _ | k
        · rfl
        · exact absurd (hasMarkerAt_iff.mpr e) (h i k)
      rw [hnone]
      rfl
  · intro k hk
    unfold extract_bridge_key at hk
    rcases hs : scanKey text.data with _ | k0 <;> rw [hs] at hk
    · cases hk
    · injection hk with hk'
      obtain ⟨i, hi, hlt⟩ := scanKey_some hs
      refine ⟨i, k0, hasMarkerAt_iff.mpr hi, hk'.symm, fun j key' hm => ?_⟩
      by_contra hij
      have hj : matchAt (text.data.drop j) = none := hlt j (by omega)
      rw [hasMarkerAt_iff.mp hm] at hj
      cases hj

theorem extract_bridge_key_spec_witness :
    ∃ i key, hasMarkerAt (String.data "see <!-- bridge: q7 -->") i key ∧
      "q7" = String.mk (key.map lowerChar) ∧
      ∀ j key', hasMarkerAt (String.data "see <!-- bridge: q7 -->") j key' → i ≤ j :=
  (extract_bridge_key_spec "see <!-- bridge: q7 -->").2.1 "q7" (by decide)


theorem lowerStr_map_lower (l : List Char) :
    lowerStr (String.mk (l.map lowerChar)) = String.mk (l.map lowerChar) := by
  unfold lowerStr
  rw [show (String.mk (l.map lowerChar)).data = l.map lowerChar from rfl]
  rw [List.map_map]
  congr 1
  exact List.map_congr_left fun c _ => by simp [Function.comp, lowerChar_idem]

/-- Claim C5 counterexample: the regex is compiled without a
case-insensitive flag, so markers whose literal tokens are upper-cased are
not recognized, contradicting the claimed case-insensitivity. -/
theorem extract_uppercase_literal_counterexample :
    extract_bridge_key "Please see <!-- BRIDGE: Ab12 -->" = none ∧
    extract_bridge_key "&LT;!--bridge:XY9Z--&gt;" = none := by decide

/-- Claim C5 (amended): literal tokens are matched case-sensitively (they
must appear exactly as `<`/`&lt;`, `!--`, `bridge`, `:`, `--`, `>`/`&gt;`);
only the captured key may mix upper and lower case, and it is lower-cased
in the result. -/
theorem extract_key_mixed_case (key : String) (hne : key.data ≠ [])
    (hal : ∀ c ∈ key.data, isAlnum c = true) :
    extract_bridge_key ("<!--bridge:" ++ key ++ "-->") = some (lowerStr key) := by
  have h1 : "<!--bridge:".data = ['<', '!', '-', '-', 'b', 'r', 'i', 'd', 'g', 'e', ':'] := rfl
  have h2 : "-->".data = ['-', '-', '>'] := rfl
  have hm : markerMatch ("<!--bridge:" ++ key ++ "-->").data key.data := by
    refine ⟨['<'], [], [], [], [], ['>'], Or.inl rfl, by simp [wsRun], by simp [wsRun],
      by simp [wsRun], ⟨hne, hal⟩, by simp [wsRun], Or.inl rfl, ?_⟩
    rw [String.data_append, String.data_append, h1, h2]
    simp
  have hAt : matchAt ("<!--bridge:" ++ key ++ "-->").data = some key.data := by
    have := matchAt_complete hm []
    simpa using this
  unfold extract_bridge_key
  rw [scanKey_of_matchAt hAt]
  rfl

theorem extract_key_mixed_case_witness :
    extract_bridge_key ("<!--bridge:" ++ "Ab12" ++ "-->") = some (lowerStr "Ab12") :=
  extract_key_mixed_case "Ab12" (by decide) (by decide)

/-- Claim C6: `validate_bridge_key` returns true iff `extract_bridge_key` on
the same text yields a key equal case-insensitively to the expected key; in
particular when no marker is present (`extract` returns `none`) it returns
false for every expected key. -/
theorem validate_bridge_key_iff_extract (text expected_key : String) :
    (validate_bridge_key text expected_key = true ↔
      ∃ k, extract_bridge_key text = some k ∧ lowerStr k = lowerStr expected_key) ∧
    (extract_bridge_key text = none → validate_bridge_key text expected_key = false) := by
  unfold validate_bridge_key extract_bridge_key
  rcases hs : scanKey text.data with _ | k0
  · constructor
    · constructor
      · intro h
        exact absurd h (by simp)
      · rintro ⟨k, hk, -⟩
        exact absurd hk (by simp)
    · intro _
      rfl
  · refine ⟨⟨?_, ?_⟩, ?_⟩
    · intro h
      refine ⟨String.mk (k0.map lowerChar), rfl, ?_⟩
      rw [lowerStr_map_lower k0]
      exact eq_of_beq h
    · rintro ⟨k, hk, hlow⟩
      injection hk with hk'
      subst hk'
      rw [lowerStr_map_lower k0] at hlow
      exact beq_iff_eq.mpr hlow
    · intro h
      cases h

theorem validate_bridge_key_iff_extract_witness :
    validate_bridge_key "x <!-- bridge: ab -->" "AB" = true :=
  ((validate_bridge_key_iff_extract "x <!-- bridge: ab -->" "AB").1).mpr
    ⟨"ab", by decide, by decide⟩



theorem find?_map_update {l : List EntryRow} {eid : String} {e : EntryRow}
    (f : EntryRow → EntryRow) (hf : ∀ r, (f r).id = r.id)
    (h : l.find? (fun r => r.id == eid) = some e) :
    (l.map fun r => if r.id == eid then f r else r).find? (fun r => r.id == eid) =
      some (f e) := by
  induction l with
  | nil => simp [List.find?] at h
  | cons a l ih =>
    by_cases ha : (a.id == eid) = true
    · rw [List.find?_cons, ha] at h
      injection h with h'
      subst h'
      simp only [List.map_cons, if_pos ha]
      rw [List.find?_cons]
      rw [show ((f a).id == eid) = true by rw [hf]; exact ha]
    · rw [List.find?_cons, Bool.of_not_eq_true ha] at h
      simp only [List.map_cons, if_neg ha]
      rw [List.find?_cons, Bool.of_not_eq_true ha]
      exact ih h

theorem map_update_of_absent {l : List EntryRow} {eid : String}
    (f : EntryRow → EntryRow) (h : ∀ r ∈ l, r.id ≠ eid) :
    (l.map fun r => if r.id == eid then f r else r) = l := by
  induction l with
  | nil => rfl
  | cons a l ih =>
    have ha : ¬(a.id == eid) = true := by simpa using h a (by simp)
    simp only [List.map_cons, if_neg ha]
    rw [ih fun r hr => h r (by simp [hr])]

theorem filter_keep_of_absent {α : Type} (g : α → String) {l : List α} {x : String}
    (h : ∀ r ∈ l, g r ≠ x) : (l.filter fun r => !(g r == x)) = l := by
  induction l with
  | nil => rfl
  | cons a l ih =>
    have ha : (!(g a == x)) = true := by simpa using h a (by simp)
    simp only [List.filter_cons, ha, if_pos]
    rw [ih fun r hr => h r (by simp [hr])]

theorem foldl_pick_some {α : Type} (f : α → Int) (l : List α) :
    ∀ b : α, l.foldl (pickStep f) (some b) =
      some (l.foldl (fun b r => if f b < f r then r else b) b) := by
  induction l with
  | nil => intro b; rfl
  | cons a l ih =>
    intro b
    simp only [List.foldl_cons, pickStep]
    by_cases h : f b < f a
    · rw [if_pos h, if_pos h, ih]
    · rw [if_neg h, if_neg h, ih]

theorem pick2_mem {α : Type} (f : α → Int) (l : List α) :
    ∀ b : α, l.foldl (fun b r => if f b < f r then r else b) b = b ∨
      l.foldl (fun b r => if f b < f r then r else b) b ∈ l := by
  induction l with
  | nil => intro b; exact Or.inl rfl
  | cons a l ih =>
    intro b
    simp only [List.foldl_cons]
    by_cases h : f b < f a
    · rw [if_pos h]
      rcases ih a with h' | h'
      · exact Or.inr (by simp [h'])
      · exact Or.inr (by simp [h'])
    · rw [if_neg h]
      rcases ih b with h' | h'
      · exact Or.inl h'
      · exact Or.inr (by simp [h'])

theorem pick2_ge_init {α : Type} (f : α → Int) (l : List α) :
    ∀ b : α, f b ≤ f (l.foldl (fun b r => if f b < f r then r else b) b) := by
  induction l with
  | nil => intro b; exact le_refl _
  | cons a l ih =>
    intro b
    simp only [List.foldl_cons]
    by_cases h : f b < f a
    · rw [if_pos h]
      exact le_trans (le_of_lt h) (ih a)
    · rw [if_neg h]
      exact ih b

theorem pick2_ge_mem {α : Type} (f : α → Int) (l : List α) :
    ∀ b : α, ∀ x ∈ l, f x ≤ f (l.foldl (fun b r => if f b < f r then r else b) b) := by
  induction l with
  | nil => intro b x hx; cases hx
  | cons a l ih =>
    intro b x hx
    simp only [List.foldl_cons]
    rcases List.mem_cons.mp hx with rfl | hx
    · by_cases h : f b < f x
      · rw [if_pos h]
        exact pick2_ge_init f l x
      · rw [if_neg h]
        exact le_trans (le_of_not_lt h) (pick2_ge_init f l b)
    · by_cases h : f b < f a
      · rw [if_pos h]
        exact ih a x hx
      · rw [if_neg h]
        exact ih b x hx

theorem pickLater_eq_none_iff {α : Type} (f : α → Int) (l : List α) :
    pickLater f l = none ↔ l = [] := by
  cases l with
  | nil => simp [pickLater]
  | cons a l =>
    unfold pickLater
    simp only [List.foldl_cons, pickStep]
    rw [foldl_pick_some]
    simp

theorem pickLater_some_spec {α : Type} {f : α → Int} {l : List α} {b : α}
    (h : pickLater f l = some b) : b ∈ l ∧ ∀ x ∈ l, f x ≤ f b := by
  cases l with
  | nil => cases h
  | cons a l =>
    unfold pickLater at h
    simp only [List.foldl_cons, pickStep] at h
    rw [foldl_pick_some] at h
    injection h with h'
    subst h'
    constructor
    · rcases pick2_mem f l a with h' | h'
      · rw [h']; simp
      · simp [h']
    · intro x hx
      rcases List.mem_cons.mp hx with rfl | hx
      · exact pick2_ge_init f l x
      · exact pick2_ge_mem f l a x hx


/-- Claim C7: `get_pending_block` returns the stream's pending block with
the greatest `created_at` (`none` exactly when the stream has none), and in
the concrete scenario create P1 (t=100), create P2 (t=200) it returns P2,
then after `delete_pending_block P2` it returns P1. -/
theorem get_pending_block_spec (db : DB) (sid : String) :
    (get_pending_block db sid = .ok none ↔
      db.pendings.filter (fun b => b.stream_id == sid) = []) ∧
    (∀ b, get_pending_block db sid = .ok (some b) →
      b ∈ db.pendings ∧ b.stream_id = sid ∧
      ∀ b' ∈ db.pendings, b'.stream_id = sid → b'.created_at ≤ b.created_at) ∧
    (∃ p1 db1 p2 db2 db3,
      create_pending_block ⟨[], [], [], []⟩ "s" "k1" [] "CRITIQUE" 100 "P1" =
        .ok (p1, db1) ∧
      create_pending_block db1 "s" "k2" [] "CRITIQUE" 200 "P2" = .ok (p2, db2) ∧
      get_pending_block db2 "s" = .ok (some p2) ∧
      delete_pending_block db2 "P2" = .ok db3 ∧
      get_pending_block db3 "s" = .ok (some p1)) := by
  refine ⟨?_, ?_, ?_⟩
  · unfold get_pending_block
    constructor
    · intro h
      injection h with h'
      exact (pickLater_eq_none_iff _ _).mp h'
    · intro h
      rw [h]
      rfl
  · intro b h
    injection h with h'
    obtain ⟨hmem, hge⟩ := pickLater_some_spec h'
    have hsid : (b.stream_id == sid) = true := (List.mem_filter.mp hmem).2
    refine ⟨(List.mem_filter.mp hmem).1, by simpa using hsid, ?_⟩
    intro b' hb' hsid'
    exact hge b' (List.mem_filter.mpr ⟨hb', by simpa using hsid'⟩)
  · exact ⟨_, _, _, _, _, rfl, rfl, rfl, rfl, rfl⟩

theorem get_pending_block_spec_witness :
    samplePending ∈ dbPending.pendings ∧ samplePending.stream_id = "s" :=
  ⟨((get_pending_block_spec dbPending "s").2.1 samplePending rfl).1,
   ((get_pending_block_spec dbPending "s").2.1 samplePending rfl).2.1⟩

/-- Claim C10: for an id not present in the store, `toggle_entry_staging`,
`delete_entry` and `delete_pending_block` all return `Ok` (an UPDATE or
DELETE affecting zero rows is success) and leave the store unchanged. -/
theorem absent_id_mutations_ok (db : DB) (eid pid : String) (b : Bool)
    (he : ∀ r ∈ db.entries, r.id ≠ eid) (hp : ∀ r ∈ db.pendings, r.id ≠ pid) :
    toggle_entry_staging db eid b = .ok db ∧
    delete_entry db eid = .ok db ∧
    delete_pending_block db pid = .ok db := by
  refine ⟨?_, ?_, ?_⟩
  · unfold toggle_entry_staging
    rw [map_update_of_absent _ he]
  · unfold delete_entry
    rw [filter_keep_of_absent (fun r : EntryRow => r.id) he]
  · unfold delete_pending_block
    rw [filter_keep_of_absent (fun r : PendingRow => r.id) hp]

theorem absent_id_mutations_ok_witness :
    toggle_entry_staging dbFresh "B" true = .ok dbFresh ∧
    delete_entry dbFresh "B" = .ok dbFresh ∧
    delete_pending_block dbFresh "Q" = .ok dbFresh :=
  absent_id_mutations_ok dbFresh "B" "Q" true (by decide) (by decide)


/-- Claim C2: a successful `revert_to_version` replaces the entry's current
content with the chosen version's stored snapshot, creates no new version
row, and leaves every entry's `version_head` (and every other table)
unchanged. -/
theorem revert_to_version_spec (db : DB) (eid : String) (vn now : Int) (db' : DB)
    (h : revert_to_version db eid vn now = .ok db') :
    db'.versions = db.versions ∧
    db'.streams = db.streams ∧
    db'.pendings = db.pendings ∧
    db'.entries.map (fun r => r.version_head) = db.entries.map (fun r => r.version_head) ∧
    db'.entries.map (fun r => r.id) = db.entries.map (fun r => r.id) ∧
    ∃ v, db.versions.find?
        (fun v => v.entry_id == eid && v.version_number == vn) = some v ∧
      ∀ r ∈ db'.entries, r.id = eid → r.content = v.content_snapshot := by
  unfold revert_to_version at h
  rcases hf : db.versions.find?
      (fun v => v.entry_id == eid && v.version_number == vn) with _ | v <;> rw [hf] at h
  · cases h
  · injection h with h'
    subst h'
    refine ⟨rfl, rfl, rfl, ?_, ?_, v, hf, ?_⟩
    · rw [List.map_map]
      exact List.map_congr_left fun r _ => by
        by_cases hid : (r.id == eid) = true <;> simp [Function.comp, hid]
    · rw [List.map_map]
      exact List.map_congr_left fun r _ => by
        by_cases hid : (r.id == eid) = true <;> simp [Function.comp, hid]
    · intro r hr hid
      obtain ⟨r0, hr0, hr0e⟩ := List.mem_map.mp hr
      by_cases h0 : (r0.id == eid) = true
      · rw [if_pos h0] at hr0e
        subst hr0e
        rfl
      · rw [if_neg h0] at hr0e
        subst hr0e
        simp at h0
        exact absurd hid h0

theorem revert_to_version_spec_witness :
    ∃ db', revert_to_version dbCommitted "A" 1 50 = .ok db' ∧
      db'.versions = dbCommitted.versions ∧
      db'.entries.map (fun r => r.version_head) =
        dbCommitted.entries.map (fun r => r.version_head) :=
  ⟨_, rfl,
    (revert_to_version_spec dbCommitted "A" 1 50 _ rfl).1,
    (revert_to_version_spec dbCommitted "A" 1 50 _ rfl).2.2.2.1⟩

/-- Claim C3 counterexample: committing entry `"A"` at time 10 succeeds but
the owning stream's row (with `updated_at = 5`) is returned unchanged — the
stream's last-modified timestamp does not advance. -/
theorem commit_streams_untouched_counterexample :
    ∃ out, commit_entry_version pNone dbFresh "A" none 10 "V" = .ok out ∧
      out.2.streams = dbFresh.streams ∧
      dbFresh.streams.map (fun s => s.updated_at) = [5] :=
  ⟨_, rfl, rfl, rfl⟩

/-- Claim C3 (amended): a successful `commit_entry_version` leaves the
`streams` table — and so the owning stream's `updated_at` — completely
unchanged (it writes only `entry_versions` and the entry's
`version_head`). -/
theorem commit_entry_version_streams_unchanged (p : Parsers) (db : DB)
    (eid : String) (msg : Option String) (now : Int) (vid : String)
    (out : EntryVersion × DB)
    (h : commit_entry_version p db eid msg now vid = .ok out) :
    out.2.streams = db.streams ∧ out.2.pendings = db.pendings := by
  unfold commit_entry_version at h
  rcases hf : db.entries.find? (fun e => e.id == eid) with _ | e <;> rw [hf] at h
  · cases h
  · injection h with h'
    subst h'
    exact ⟨rfl, rfl⟩

theorem commit_entry_version_streams_unchanged_witness :
    ∃ out, commit_entry_version pNone dbFresh "A" none 10 "V" = .ok out ∧
      out.2.streams = dbFresh.streams :=
  ⟨_, rfl,
    (commit_entry_version_streams_unchanged pNone dbFresh "A" none 10 "V" _ rfl).1⟩


theorem commit_entry_version_step (p : Parsers) (db : DB) (eid : String)
    (msg : Option String) (now : Int) (vid : String) {e : EntryRow}
    (h : db.entries.find? (fun r => r.id == eid) = some e) :
    commit_entry_version p db eid msg now vid = .ok
      ({ id := vid, entry_id := eid, version_number := e.version_head + 1,
         content_snapshot := (p.content e.content).getD .null,
         commit_message := msg, committed_at := now },
       { streams := db.streams,
         entries := db.entries.map fun x =>
           if x.id == eid then { x with version_head := e.version_head + 1 } else x,
         versions := db.versions ++
           [{ id := vid, entry_id := eid, version_number := e.version_head + 1,
              content_snapshot := e.content, commit_message := msg,
              committed_at := now }],
         pendings := db.pendings }) := by
  unfold commit_entry_version
  rw [h]

theorem range_map_shift (h : Int) (n : Nat) :
    (List.range (n + 1)).map (fun i : Nat => h + (i : Int) + 1) =
      (h + 1) :: (List.range n).map (fun i : Nat => (h + 1) + (i : Int) + 1) := by
  rw [List.range_succ_eq_map]
  simp only [List.map_cons, List.map_map]
  congr 1
  · norm_num
  · exact List.map_congr_left fun i _ => by simp [Function.comp]; ring

theorem commitSeq_spec (p : Parsers) (eid : String) :
    ∀ (ps : List (Option String × Int × String)) (db : DB) (e : EntryRow),
      db.entries.find? (fun r => r.id == eid) = some e →
      ∃ db' vs rows,
        commitSeq p eid ps db = .ok (db', vs) ∧
        db'.versions = db.versions ++ rows ∧
        rows.map (fun v => v.version_number) =
          (List.range ps.length).map (fun i : Nat => e.version_head + (i : Int) + 1) ∧
        rows.map (fun v => v.content_snapshot) = List.replicate ps.length e.content ∧
        rows.map (fun v => v.entry_id) = List.replicate ps.length eid ∧
        vs.map (fun v => v.version_number) =
          (List.range ps.length).map (fun i : Nat => e.version_head + (i : Int) + 1) ∧
        db'.entries.find? (fun r => r.id == eid) =
          some { e with version_head := e.version_head + (ps.length : Int) } ∧
        db'.streams = db.streams
  | [], db, e, h => by
    refine ⟨db, [], [], rfl, by simp, by simp, by simp, by simp, by simp, ?_, rfl⟩
    simp only [List.length_nil, Nat.cast_zero, add_zero]
    exact h
  | (msg, now, vid) :: rest, db, e, h => by
    have hstep := commit_entry_version_step p db eid msg now vid h
    have hfind : (db.entries.map fun x =>
        if x.id == eid then { x with version_head := e.version_head + 1 } else x).find?
          (fun r => r.id == eid) = some { e with version_head := e.version_head + 1 } :=
      find?_map_update _ (fun r => rfl) h
    obtain ⟨db', vs, rows, hseq, hver, hnums, hsnaps, heids, hvs, hfind', hstr⟩ :=
      commitSeq_spec p eid rest
        { streams := db.streams,
          entries := db.entries.map fun x =>
            if x.id == eid then { x with version_head := e.version_head + 1 } else x,
          versions := db.versions ++
            [{ id := vid, entry_id := eid, version_number := e.version_head + 1,
               content_snapshot := e.content, commit_message := msg,
               committed_at := now }],
          pendings := db.pendings }
        { e with version_head := e.version_head + 1 } hfind
    refine ⟨db',
      { id := vid, entry_id := eid, version_number := e.version_head + 1,
        content_snapshot := (p.content e.content).getD .null,
        commit_message := msg, committed_at := now } :: vs,
      { id := vid, entry_id := eid, version_number := e.version_head + 1,
        content_snapshot := e.content, commit_message := msg,
        committed_at := now } :: rows, ?_, ?_, ?_, ?_, ?_, ?_, ?_, ?_⟩
    · unfold commitSeq
      rw [hstep]
      simp only [hseq]
    · rw [hver]
      simp
    · simp only [List.length_cons, List.map_cons]
      rw [range_map_shift]
      rw [hnums]
    · simp only [List.length_cons, List.map_cons, List.replicate_succ]
      rw [hsnaps]
    · simp only [List.length_cons, List.map_cons, List.replicate_succ]
      rw [heids]
    · simp only [List.length_cons, List.map_cons]
      rw [range_map_shift]
      rw [hvs]
    · have hX : e.version_head + ((rest.length + 1 : Nat) : Int) =
          e.version_head + 1 + (rest.length : Int) := by push_cast; ring
      simp only [List.length_cons]
      rw [hX]
      exact hfind'
    · exact hstr


/-- Claim C1: committing an entry that starts at `version_head = 0` once per
element of `ps` succeeds, appends version rows numbered exactly `1..N`
(`N = ps.length`, no gaps or duplicates), each owned by the entry and each
snapshotting the entry's current content, returns those same version
numbers, and leaves the entry's `version_head` equal to `N`. -/
theorem commit_entry_version_one_to_N (p : Parsers) (db : DB) (eid : String)
    (e : EntryRow) (ps : List (Option String × Int × String))
    (hfind : db.entries.find? (fun r => r.id == eid) = some e)
    (hfresh : e.version_head = 0) :
    ∃ db' vs rows,
      commitSeq p eid ps db = .ok (db', vs) ∧
      db'.versions = db.versions ++ rows ∧
      rows.map (fun v => v.version_number) =
        (List.range ps.length).map (fun i : Nat => (i : Int) + 1) ∧
      rows.map (fun v => v.content_snapshot) = List.replicate ps.length e.content ∧
      rows.map (fun v => v.entry_id) = List.replicate ps.length eid ∧
      vs.map (fun v => v.version_number) =
        (List.range ps.length).map (fun i : Nat => (i : Int) + 1) ∧
      db'.entries.find? (fun r => r.id == eid) =
        some { e with version_head := (ps.length : Int) } := by
  obtain ⟨db2, vs, rows, h1, h2, h3, h4, h5, h6, h7, h8⟩ := commitSeq_spec p eid ps db e hfind
  rw [hfresh] at h3 h6 h7
  simp only [zero_add] at h3 h6 h7
  exact ⟨db2, vs, rows, h1, h2, h3, h4, h5, h6, h7⟩

theorem commit_entry_version_one_to_N_witness :
    ∃ db2 vs rows,
      commitSeq pNone "A" [(none, 10, "V1"), (some "m", 20, "V2")] dbFresh =
        .ok (db2, vs) ∧
      db2.versions = dbFresh.versions ++ rows ∧
      rows.map (fun v => v.version_number) =
        (List.range
          (List.length [((none : Option String), (10 : Int), "V1"),
            (some "m", (20 : Int), "V2")])).map (fun i : Nat => (i : Int) + 1) ∧
      rows.map (fun v => v.content_snapshot) =
        List.replicate
          (List.length [((none : Option String), (10 : Int), "V1"),
            (some "m", (20 : Int), "V2")]) sampleEntry.content ∧
      rows.map (fun v => v.entry_id) =
        List.replicate
          (List.length [((none : Option String), (10 : Int), "V1"),
            (some "m", (20 : Int), "V2")]) "A" ∧
      vs.map (fun v => v.version_number) =
        (List.range
          (List.length [((none : Option String), (10 : Int), "V1"),
            (some "m", (20 : Int), "V2")])).map (fun i : Nat => (i : Int) + 1) ∧
      db2.entries.find? (fun r => r.id == "A") =
        some { sampleEntry with
          version_head :=
            ((List.length [((none : Option String), (10 : Int), "V1"),
              (some "m", (20 : Int), "V2")] : Nat) : Int) } :=
  commit_entry_version_one_to_N pNone dbFresh "A" sampleEntry
    [(none, 10, "V1"), (some "m", 20, "V2")] rfl rfl


theorem bySeq_trans : ∀ a b c : EntryRow, bySeq a b → bySeq b c → bySeq a c := by
  intro a b c hab hbc
  simp only [bySeq, decide_eq_true_eq] at *
  omega

theorem bySeq_total : ∀ a b : EntryRow, bySeq a b || bySeq b a := by
  intro a b
  simp only [bySeq, Bool.or_eq_true, decide_eq_true_eq]
  omega

/-- Claim C8: `get_staged_entries` returns exactly the stream's entries with
`is_staged` set, as a list sorted by `sequence_id` ascending. -/
theorem get_staged_entries_spec (p : Parsers) (db : DB) (sid : String) :
    ∃ l, get_staged_entries p db sid = .ok l ∧
      l.Perm ((db.entries.filter fun e =>
        e.stream_id == sid && e.is_staged == 1).map (stagedRowToEntry p)) ∧
      List.Pairwise (fun a b => a.sequence_id ≤ b.sequence_id) l := by
  refine ⟨_, rfl, ?_, ?_⟩
  · exact (List.mergeSort_perm _ bySeq).map _
  · have hs := List.sorted_mergeSort bySeq_trans bySeq_total
      (db.entries.filter fun e => e.stream_id == sid && e.is_staged == 1)
    exact hs.map _ fun a b h => by simpa [bySeq] using h


/-- Claim C9: the read commands succeed regardless of whether the stored
JSON parses, and substitute the default (`null` content, `[]` tags) for any
field whose stored text fails to parse. -/
theorem reads_substitute_default (p : Parsers) (db : DB) (sid eid : String) :
    (∃ l, get_staged_entries p db sid = .ok l ∧
      ∀ en ∈ l, ∃ r ∈ db.entries, en = stagedRowToEntry p r ∧
        (p.content r.content = none → en.content = Json.null)) ∧
    (∃ l, get_entry_versions p db eid = .ok l ∧
      ∀ v ∈ l, ∃ r ∈ db.versions, v = versionRowToEntryVersion p r ∧
        (p.content r.content_snapshot = none → v.content_snapshot = Json.null)) ∧
    (∃ ov, get_latest_version p db eid = .ok ov ∧
      ∀ v ∈ ov, ∃ r ∈ db.versions, v = versionRowToEntryVersion p r ∧
        (p.content r.content_snapshot = none → v.content_snapshot = Json.null)) ∧
    (∀ s, db.streams.find? (fun s0 => s0.id == sid) = some s →
      ∃ res, get_stream_details p db sid = .ok res ∧
        res.stream = streamRowToStream p s ∧
        ((s.tags = none ∨ ∃ ts, s.tags = some ts ∧ p.tags ts = none) →
          res.stream.tags = []) ∧
        ∀ en ∈ res.entries, ∃ r ∈ db.entries, en = detailRowToEntry p r ∧
          (p.content r.content = none → en.content = Json.null)) := by
  refine ⟨⟨_, rfl, ?_⟩, ⟨_, rfl, ?_⟩, ⟨_, rfl, ?_⟩, ?_⟩
  · intro en hen
    obtain ⟨r, hr, rfl⟩ := List.mem_map.mp hen
    have hr' : r ∈ db.entries :=
      (List.mem_filter.mp (List.mem_mergeSort.mp hr)).1
    exact ⟨r, hr', rfl, fun h => by simp [stagedRowToEntry, h]⟩
  · intro v hv
    obtain ⟨r, hr, rfl⟩ := List.mem_map.mp hv
    have hr' : r ∈ db.versions :=
      (List.mem_filter.mp (List.mem_mergeSort.mp hr)).1
    exact ⟨r, hr', rfl, fun h => by simp [versionRowToEntryVersion, h]⟩
  · intro v hv
    rcases hp : pickLater (fun v => v.version_number)
        (db.versions.filter fun v => v.entry_id == eid) with _ | r
    · rw [Option.mem_def] at hv
      rw [hp] at hv
      cases hv
    · rw [Option.mem_def] at hv
      rw [hp] at hv
      injection hv with hv'
      obtain ⟨hmem, -⟩ := pickLater_some_spec hp
      refine ⟨r, (List.mem_filter.mp hmem).1, hv'.symm, fun h => ?_⟩
      rw [hv'.symm]
      simp [versionRowToEntryVersion, h]
  · intro s hs
    unfold get_stream_details
    rw [hs]
    refine ⟨_, rfl, rfl, ?_, ?_⟩
    · intro h
      rcases h with h | ⟨ts, hts, hpt⟩
      · simp [streamRowToStream, h]
      · simp [streamRowToStream, hts, hpt]
    · intro en hen
      obtain ⟨r, hr, rfl⟩ := List.mem_map.mp hen
      have hr' : r ∈ db.entries :=
        (List.mem_filter.mp (List.mem_mergeSort.mp hr)).1
      exact ⟨r, hr', rfl, fun h => by simp [detailRowToEntry, h]⟩

theorem reads_substitute_default_witness :
    ∃ res, get_stream_details pNone dbBad "s" = .ok res ∧
      res.stream.tags = [] := by
  obtain ⟨res, h1, h2, h3, h4⟩ :=
    (reads_substitute_default pNone dbBad "s" "A").2.2.2 sampleStream rfl
  exact ⟨res, h1, h3 (Or.inr ⟨"notjson", rfl, rfl⟩)⟩

end KolamIkan
